import Mathlib

/-!
Verification of the GCP IAM static-site generator
(`scripts/generate_static_site.py`).

Python strings are modelled as lists of characters (`Str`), Python dicts
coming from the JSON API as structures with `Option`-valued fields
(`dict.get` with a default becomes `Option.getD`), and the
`permission_to_roles` dict as a total function with default `[]`.
Impure inputs (the current UTC timestamp) are hoisted into explicit
parameters.  Everything else is a direct transcription of the source.
-/

namespace GcpIam

set_option maxRecDepth 8192

/-- Python strings, modelled as their list of code points. -/
abbrev Str := List Char

/-- Shorthand turning a Lean string literal into the character-list model. -/
def str (s : String) : Str := s.data

/-- Strict lexicographic order on strings by code point: the order Python
uses to compare `str` values (and hence the order of `sorted`). -/
def lexLt : Str → Str → Bool
  | _, [] => false
  | [], _ :: _ => true
  | a :: as, b :: bs =>
    if a < b then true
    else if b < a then false
    else lexLt as bs

/-- Insert into a sorted list; places `x` before the first element `y`
with `¬ lt y x`, which makes the derived sort stable like CPython. -/
def insertLt (lt : α → α → Bool) (x : α) : List α → List α
  | [] => [x]
  | y :: ys => if lt y x then y :: insertLt lt x ys else x :: y :: ys

/-- Stable insertion sort by a strict comparison: the model of Python
`sorted` (with `lt` encoding the `<` used on the sort keys). -/
def sortLt (lt : α → α → Bool) : List α → List α
  | [] => []
  | x :: xs => insertLt lt x (sortLt lt xs)

/-- `html.escape` with its default `quote=True`: the five sequential
`str.replace` calls of CPython implementation are equivalent to this
character-wise substitution because no replacement string contains a
character replaced by a later step. -/
def escapeChar (c : Char) : Str :=
  if c = '&' then str "&amp;"
  else if c = '<' then str "&lt;"
  else if c = '>' then str "&gt;"
  else if c = Char.ofNat 34 then str "&quot;"
  else if c = Char.ofNat 39 then str "&#x27;"
  else [c]

/-- `html.escape(s)` over the whole string. -/
def escape (s : Str) : Str := (s.map escapeChar).flatten

/-- Characters `urllib.parse.quote` leaves unencoded with its default
`safe="/"`: ASCII letters, digits, `_.-~` and `/`. -/
def isSafeChar (c : Char) : Bool :=
  if (65 ≤ c.toNat ∧ c.toNat ≤ 90) ∨ (97 ≤ c.toNat ∧ c.toNat ≤ 122) ∨
     (48 ≤ c.toNat ∧ c.toNat ≤ 57) ∨ c = '_' ∨ c = '.' ∨ c = '-' ∨ c = '~' ∨ c = '/'
  then true else false

/-- Upper-case hexadecimal digit used by percent-encoding (any
out-of-range input is irrelevant and mapped to a fixed digit). -/
def hexDigit : Nat → Char
  | 0 => '0' | 1 => '1' | 2 => '2' | 3 => '3' | 4 => '4'
  | 5 => '5' | 6 => '6' | 7 => '7' | 8 => '8' | 9 => '9'
  | 10 => 'A' | 11 => 'B' | 12 => 'C' | 13 => 'D' | 14 => 'E' | 15 => 'F'
  | _ => '0'

/-- `%XX` percent-encoding of one byte. -/
def pctByte (b : Nat) : Str := ['%', hexDigit (b / 16), hexDigit (b % 16)]

/-- UTF-8 encoding of one code point, as `urllib.parse.quote` encodes
non-safe characters byte by byte. -/
def utf8Bytes (n : Nat) : List Nat :=
  if n < 128 then [n]
  else if n < 2048 then [192 + n / 64, 128 + n % 64]
  else if n < 65536 then [224 + n / 4096, 128 + (n / 64) % 64, 128 + n % 64]
  else [240 + n / 262144, 128 + (n / 4096) % 64, 128 + (n / 64) % 64, 128 + n % 64]

/-- `urllib.parse.quote` on one character. -/
def quoteChar (c : Char) : Str :=
  if isSafeChar c then [c] else ((utf8Bytes c.toNat).map pctByte).flatten

/-- `urllib.parse.quote(s)` with the default `safe="/"`. -/
def pyQuote (s : Str) : Str := (s.map quoteChar).flatten

/-- ASCII lower-casing of one character, the relevant fragment of Python
`str.lower()` (the stage keywords compared against are pure ASCII). -/
def lowerChar (c : Char) : Char :=
  if 65 ≤ c.toNat ∧ c.toNat ≤ 90 then Char.ofNat (c.toNat + 32) else c

/-- `s.lower()` over the whole string. -/
def lower (s : Str) : Str := s.map lowerChar

/-- Python `perm.split` on dots: splits on every dot, so the empty string
yields `[""]` and a trailing dot yields a trailing empty segment. -/
def splitOnDot : Str → List Str
  | [] => [[]]
  | c :: rest =>
    if c = '.' then [] :: splitOnDot rest
    else
      match splitOnDot rest with
      | [] => [[c]]
      | s :: ss => (c :: s) :: ss

/-- Joining segments with dots; the specification-side inverse used to
state what `split` on dots means. -/
def joinDots : List Str → Str
  | [] => []
  | [s] => s
  | s :: ss => s ++ '.' :: joinDots ss

/-- Worker for `replaceAll`, structurally recursive on a fuel that the
wrapper instantiates with the string length (always sufficient, since
each step consumes at least one character and at least one fuel). -/
def replaceAllAux (pat rep : Str) : Nat → Str → Str
  | _, [] => []
  | 0, s => s
  | fuel + 1, c :: rest =>
    if pat ≠ [] ∧ pat.isPrefixOf (c :: rest) then
      rep ++ replaceAllAux pat rep fuel (rest.drop (pat.length - 1))
    else
      c :: replaceAllAux pat rep fuel rest

/-- Python `s.replace(pat, rep)`: scan left to right, replacing each
non-overlapping occurrence of `pat`. -/
def replaceAll (pat rep : Str) (s : Str) : Str :=
  replaceAllAux pat rep s.length s

/-- Python `pat in s` (substring containment). -/
def hasSub (pat : Str) : Str → Bool
  | [] => pat.isEmpty
  | c :: rest => pat.isPrefixOf (c :: rest) || hasSub pat rest

/-- `str(n)` for a natural number, via the Lean decimal printer (identical
digits to Python). -/
def natStr (n : Nat) : Str := (toString n).data

/-- One role object as returned by the IAM API: a JSON dict whose fields
may each be absent, read in the source only through `role.get(key, dflt)`. -/
structure RoleInput where
  name : Option Str
  title : Option Str
  description : Option Str
  stage : Option Str
  includedPermissions : Option (List Str)
  etag : Option Str
deriving DecidableEq

/-- The `(name, title, stage)` summary dict appended to
`permission_to_roles[perm]` in `build_dataset`. -/
structure RoleSummary where
  name : Str
  title : Str
  stage : Str
deriving DecidableEq

/-- One entry of `dataset["roles"]`. -/
structure RoleRecord where
  name : Str
  title : Str
  description : Str
  stage : Str
  included_permissions : List Str
  etag : Str
deriving DecidableEq

/-- One entry of `dataset["permissions"]`. -/
structure PermissionRecord where
  name : Str
  service : Str
  resource : Str
  action : Str
  granted_by_roles : List RoleSummary
deriving DecidableEq

/-- `dataset["metadata"]`. -/
structure Metadata where
  total_roles : Nat
  total_permissions : Nat
  last_updated : Str
  source : Str
deriving DecidableEq

/-- The dataset built by `build_dataset`. -/
structure Dataset where
  roles : List RoleRecord
  permissions : List PermissionRecord
  metadata : Metadata
deriving DecidableEq

/-- The `permission_to_roles` dict, modelled as a total function with the
default `[]` of `dict.get(perm, [])` built in. -/
abbrev PermMap := Str → List RoleSummary

/-- The summary appended for a role: `role.get` of name and title with default `""` and of stage with default `"GA"`. -/
def summaryOf (r : RoleInput) : RoleSummary :=
  ⟨r.name.getD [], r.title.getD [], r.stage.getD (str "GA")⟩

/-- Body of the inner loop of `build_dataset`: record `perm` as seen and
append the role summary to its grantor list. -/
def grantStep (s : RoleSummary) (st : List Str × PermMap) (perm : Str) :
    List Str × PermMap :=
  (if perm ∈ st.1 then st.1 else st.1 ++ [perm],
   fun q => if q = perm then st.2 q ++ [s] else st.2 q)

/-- One iteration of the outer loop of `build_dataset`: process every
permission of one role. -/
def roleStep (st : List Str × PermMap) (r : RoleInput) : List Str × PermMap :=
  (r.includedPermissions.getD []).foldl (grantStep (summaryOf r)) st

/-- The first pass of `build_dataset`: the `all_permissions` set (as a
duplicate-free list, only its membership is ever consumed) together with
the `permission_to_roles` dict. -/
def invertRoles (roles : List RoleInput)  : List Str × PermMap :=
  roles.foldl roleStep ([], fun _ => [])

/-- Projection of one API role dict onto `dataset["roles"]`. -/
def roleRecordOf (r : RoleInput) : RoleRecord :=
  ⟨r.name.getD [], r.title.getD [], r.description.getD [],
   r.stage.getD (str "GA"), r.includedPermissions.getD [], r.etag.getD []⟩

/-- One entry of `dataset["permissions"]`: the permission name split on
`.` into service / resource / action, plus its grantor list. -/
def permEntry (m : PermMap) (p : Str) : PermissionRecord :=
  let parts := splitOnDot p
  ⟨p, parts.getD 0 [], parts.getD 1 [], parts.getD 2 [], m p⟩

/-- `build_dataset(roles)`; the impure `datetime.utcnow().isoformat()`
is the explicit parameter `now`. -/
def build_dataset (roles : List RoleInput) (now : Str) : Dataset :=
  let st := invertRoles roles
  let roles_data := roles.map roleRecordOf
  let permissions_data := (sortLt lexLt st.1).map (permEntry st.2)
  ⟨roles_data, permissions_data,
   ⟨roles_data.length, permissions_data.length, now ++ str "Z",
    str "Google Cloud IAM API"⟩⟩

/-- The fixed site base URL. -/
def BASE_URL : Str := str "https://gcpiam.com"

/-- The CSS block of the shared head template (Python `{{`/`}}` are the
literal braces written here as `\x7b`/`\x7d`). -/
def headCss : Str := str "        :root \x7b\n            --bg-primary: #ffffff;\n            --bg-secondary: #f5f5f5;\n            --text-primary: #1a1a1a;\n            --text-secondary: #666666;\n            --border-color: #e0e0e0;\n            --accent: #1a73e8;\n        \x7d\n        @media (prefers-color-scheme: dark) \x7b\n            :root \x7b\n                --bg-primary: #1a1a1a;\n                --bg-secondary: #2d2d2d;\n                --text-primary: #e0e0e0;\n                --text-secondary: #b0b0b0;\n                --border-color: #404040;\n                --accent: #8ab4f8;\n            \x7d\n        \x7d\n        * \x7b margin: 0; padding: 0; box-sizing: border-box; \x7d\n        body \x7b\n            font-family: -apple-system, BlinkMacSystemFont, \x27Segoe UI\x27, Roboto, sans-serif;\n            background: var(--bg-primary);\n            color: var(--text-primary);\n            line-height: 1.6;\n            padding: 2rem;\n            max-width: 1000px;\n            margin: 0 auto;\n        \x7d\n        h1 \x7b color: var(--accent); margin-bottom: 0.5rem; word-break: break-word; \x7d\n        h2 \x7b margin-top: 2rem; margin-bottom: 1rem; border-bottom: 2px solid var(--border-color); padding-bottom: 0.5rem; \x7d\n        .subtitle \x7b color: var(--text-secondary); margin-bottom: 1rem; \x7d\n        .description \x7b background: var(--bg-secondary); padding: 1rem; border-radius: 8px; margin-bottom: 1.5rem; \x7d\n        .badge \x7b display: inline-block; padding: 2px 8px; border-radius: 4px; font-size: 0.85rem; margin-right: 0.5rem; \x7d\n        .badge-ga \x7b background: #e8f5e9; color: #2e7d32; \x7d\n        .badge-beta \x7b background: #fff3e0; color: #e65100; \x7d\n        .badge-alpha \x7b background: #e3f2fd; color: #1565c0; \x7d\n        .badge-deprecated \x7b background: #ffebee; color: #c62828; \x7d\n        .list \x7b list-style: none; \x7d\n        .list li \x7b padding: 0.75rem 1rem; border-bottom: 1px solid var(--border-color); \x7d\n        .list li:hover \x7b background: var(--bg-secondary); \x7d\n        .list a \x7b color: var(--accent); text-decoration: none; \x7d\n        .list a:hover \x7b text-decoration: underline; \x7d\n        .role-title \x7b color: var(--text-secondary); font-size: 0.9rem; \x7d\n        .count \x7b color: var(--text-secondary); font-size: 0.9rem; \x7d\n        .back-link \x7b display: inline-block; margin-bottom: 1rem; color: var(--accent); text-decoration: none; \x7d\n        .back-link:hover \x7b text-decoration: underline; \x7d\n        @media (prefers-color-scheme: dark) \x7b\n            .badge-ga \x7b background: #1b3d20; color: #81c784; \x7d\n            .badge-beta \x7b background: #3d2f1f; color: #ffb74d; \x7d\n            .badge-alpha \x7b background: #1e3a5f; color: #90caf9; \x7d\n            .badge-deprecated \x7b background: #3d1f1f; color: #ef9a9a; \x7d\n        \x7d\n"

/-- `generate_html_head(title, description, canonical_path)`. -/
def generate_html_head (title description canonical_path : Str) : Str :=
  str "<!DOCTYPE html>\n<html lang=\"en\">\n<head>\n    <meta charset=\"UTF-8\">\n    <meta name=\"viewport\" content=\"width=device-width, initial-scale=1.0\">\n    <title>" ++
  escape title ++
  str " | GCP IAM Reference</title>\n    <meta name=\"description\" content=\"" ++
  escape description ++
  str "\">\n    <link rel=\"canonical\" href=\"" ++ BASE_URL ++ canonical_path ++
  str "\">\n    <meta property=\"og:title\" content=\"" ++ escape title ++
  str "\">\n    <meta property=\"og:description\" content=\"" ++ escape description ++
  str "\">\n    <meta property=\"og:url\" content=\"" ++ BASE_URL ++ canonical_path ++
  str "\">\n    <meta property=\"og:type\" content=\"website\">\n    <style>\n" ++
  headCss ++
  str "    </style>\n</head>\n<body>\n    <a href=\"/\" class=\"back-link\">&larr; Back to Search</a>\n"

/-- `generate_html_footer()`. -/
def generate_html_footer : Str :=
  str "\n    <footer style=\"margin-top: 3rem; padding-top: 1rem; border-top: 1px solid var(--border-color); color: var(--text-secondary); font-size: 0.85rem;\">\n        <p>Data sourced from <a href=\"https://cloud.google.com/iam/docs/understanding-roles\" style=\"color: var(--accent);\">Google Cloud IAM API</a>.\n        Updated daily.</p>\n    </footer>\n</body>\n</html>"

/-- The badge class chosen by `get_stage_badge`: lower-case the stage
(empty, i.e. Python-falsy, becomes `"ga"`) and keep it only if it is one
of the four known stages. -/
def badgeClass (stage : Str) : Str :=
  let stage_lower := if stage = [] then str "ga" else lower stage
  if stage_lower ∈ [str "ga", str "beta", str "alpha", str "deprecated"]
  then str "badge-" ++ stage_lower else str "badge-ga"

/-- `get_stage_badge(stage)`; `stage or "GA"` is the displayed text. -/
def get_stage_badge (stage : Str) : Str :=
  str "<span class=\"badge " ++ badgeClass stage ++ str "\">" ++
  escape (if stage = [] then str "GA" else stage) ++ str "</span>"

/-- The meta description of `generate_permission_page`. -/
def permPageMetaDescription (pd : PermissionRecord) : Str :=
  str "GCP IAM permission " ++ pd.name ++ str " - granted by " ++
  natStr pd.granted_by_roles.length ++ str " roles. Service: " ++ pd.service ++
  str ", Resource: " ++ pd.resource ++ str ", Action: " ++ pd.action ++ str "."

/-- One `<li>` of the grantor list on a permission page. -/
def roleItemHtml (r : RoleSummary) : Str :=
  str "    <li>\n        <a href=\"/roles/" ++
  pyQuote (replaceAll (str "roles/") [] r.name) ++ str "\">" ++ escape r.name ++
  str "</a>\n        " ++ get_stage_badge r.stage ++
  str "\n        <span class=\"role-title\">" ++ escape r.title ++
  str "</span>\n    </li>\n"

/-- The `html +=` loop over the sorted grantor list. -/
def rolesListHtml (l : List RoleSummary) : Str :=
  l.foldl (fun acc r => acc ++ roleItemHtml r) []

/-- The grantor list as `generate_permission_page` iterates it:
`sorted(roles, key=lambda r: r["name"])`. -/
def sortedGrantors (pd : PermissionRecord) : List RoleSummary :=
  sortLt (fun a b => lexLt a.name b.name) pd.granted_by_roles

/-- Head plus everything of a permission page before the grantor list. -/
def permPagePre (pd : PermissionRecord) : Str :=
  generate_html_head pd.name (permPageMetaDescription pd)
    (str "/permissions/" ++ pyQuote pd.name) ++
  str "\n    <h1>" ++ escape pd.name ++
  str "</h1>\n    <p class=\"subtitle\">GCP IAM Permission</p>\n\n    <div class=\"description\">\n        <p><strong>Service:</strong> " ++
  escape pd.service ++ str "</p>\n        <p><strong>Resource:</strong> " ++
  escape pd.resource ++ str "</p>\n        <p><strong>Action:</strong> " ++
  escape pd.action ++
  str "</p>\n    </div>\n\n    <h2>Roles that grant this permission <span class=\"count\">(" ++
  natStr pd.granted_by_roles.length ++ str ")</span></h2>\n"

/-- The message rendered when no role grants the permission. -/
def noGrantorsMsg : Str :=
  str "<p style=\"color: var(--text-secondary);\">No predefined roles grant this permission directly.</p>\n"

/-- `generate_permission_page(perm_data)`. -/
def generate_permission_page (pd : PermissionRecord) : Str :=
  permPagePre pd ++
  (if pd.granted_by_roles = [] then noGrantorsMsg
   else str "<ul class=\"list\">\n" ++ rolesListHtml (sortedGrantors pd) ++ str "</ul>\n") ++
  generate_html_footer

/-- The meta description of `generate_role_page`: the title, a dash, and
the description truncated to 150 characters with an ellipsis marker. -/
def roleMetaDescription (rd : RoleRecord) : Str :=
  if 150 < rd.description.length
  then rd.title ++ str " - " ++ rd.description.take 150 ++ str "..."
  else rd.title ++ str " - " ++ rd.description

/-- One `<li>` of the permission list on a role page. -/
def permItemHtml (p : Str) : Str :=
  str "    <li><a href=\"/permissions/" ++ pyQuote p ++ str "\">" ++ escape p ++
  str "</a></li>\n"

/-- The `html +=` loop over the sorted permission list. -/
def permsListHtml (l : List Str) : Str :=
  l.foldl (fun acc p => acc ++ permItemHtml p) []

/-- The permission list as `generate_role_page` iterates it:
`sorted(permissions)`. -/
def sortedPermsOf (rd : RoleRecord) : List Str :=
  sortLt lexLt rd.included_permissions

/-- Head plus everything of a role page before the permission list. -/
def rolePagePre (rd : RoleRecord) : Str :=
  generate_html_head (rd.title ++ str " (" ++ rd.name ++ str ")")
    (roleMetaDescription rd)
    (str "/roles/" ++ pyQuote (replaceAll (str "roles/") [] rd.name)) ++
  str "\n    <h1>" ++ escape rd.name ++
  str "</h1>\n    <p class=\"subtitle\">" ++ escape rd.title ++ str " " ++
  get_stage_badge rd.stage ++
  str "</p>\n\n    <div class=\"description\">\n        <p>" ++
  escape rd.description ++
  str "</p>\n    </div>\n\n    <h2>Included Permissions <span class=\"count\">(" ++
  natStr rd.included_permissions.length ++ str ")</span></h2>\n"

/-- The message rendered when the role grants no permission. -/
def noPermsMsg : Str :=
  str "<p style=\"color: var(--text-secondary);\">This role has no permissions.</p>\n"

/-- `generate_role_page(role_data, permission_to_roles)`; the second
parameter is accepted but never read by the Python body. -/
def generate_role_page (rd : RoleRecord) (permission_to_roles : PermMap) : Str :=
  rolePagePre rd ++
  (if rd.included_permissions = [] then noPermsMsg
   else str "<ul class=\"list\">\n" ++ permsListHtml (sortedPermsOf rd) ++ str "</ul>\n") ++
  generate_html_footer

/-- The sitemap preamble: XML declaration, `urlset` opening and the root
`<url>` entry, with the current UTC date as parameter `now`. -/
def sitemapHeader (now : Str) : Str :=
  str "<?xml version=\"1.0\" encoding=\"UTF-8\"?>\n<urlset xmlns=\"http://www.sitemaps.org/schemas/sitemap/0.9\">\n    <url>\n        <loc>" ++
  BASE_URL ++ str "/</loc>\n        <lastmod>" ++ now ++
  str "</lastmod>\n        <changefreq>daily</changefreq>\n        <priority>1.0</priority>\n    </url>\n"

/-- One sitemap `<url>` entry for a role (priority 0.8, weekly). -/
def roleUrlEntry (now : Str) (r : RoleRecord) : Str :=
  str "    <url>\n        <loc>" ++ BASE_URL ++ str "/roles/" ++
  pyQuote (replaceAll (str "roles/") [] r.name) ++
  str "</loc>\n        <lastmod>" ++ now ++
  str "</lastmod>\n        <changefreq>weekly</changefreq>\n        <priority>0.8</priority>\n    </url>\n"

/-- One sitemap `<url>` entry for a permission (priority 0.7, weekly). -/
def permUrlEntry (now : Str) (p : PermissionRecord) : Str :=
  str "    <url>\n        <loc>" ++ BASE_URL ++ str "/permissions/" ++
  pyQuote p.name ++ str "</loc>\n        <lastmod>" ++ now ++
  str "</lastmod>\n        <changefreq>weekly</changefreq>\n        <priority>0.7</priority>\n    </url>\n"

/-- `generate_sitemap(roles, permissions)`; the impure
`datetime.utcnow().strftime` of the date is the parameter `now`. -/
def generate_sitemap (roles : List RoleRecord) (permissions : List PermissionRecord)
    (now : Str) : Str :=
  (permissions.foldl (fun acc p => acc ++ permUrlEntry now p)
    (roles.foldl (fun acc r => acc ++ roleUrlEntry now r) (sitemapHeader now))) ++
  str "</urlset>\n"

/-- The permission page filename chosen in `main`:
`perm["name"].replace("/", "_") + ".html"`. -/
def permFilename (name : Str) : Str :=
  replaceAll (str "/") (str "_") name ++ str ".html"

/-- The role page filename chosen in `main`:
`role["name"].replace("roles/", "").replace("/", "_") + ".html"`. -/
def roleFilename (name : Str) : Str :=
  replaceAll (str "/") (str "_") (replaceAll (str "roles/") [] name) ++ str ".html"

/-- Modelled from the words of the claim (for comparison with `roleFilename`):
strip a leading `roles/` prefix only, then replace `/` by `_`. -/
def roleFilenameClaim (name : Str) : Str :=
  replaceAll (str "/") (str "_")
    (if (str "roles/").isPrefixOf name then name.drop (str "roles/").length else name) ++
  str ".html"

/-- The two-role scenario from the end-to-end test of the specification:
`roles/viewer` with stage absent, `roles/admin` with stage `GA`. -/
def viewerRole : RoleInput :=
  ⟨some (str "roles/viewer"), none, none, none,
   some [str "compute.instances.get"], none⟩

/-- Second role of the end-to-end scenario. -/
def adminRole : RoleInput :=
  ⟨some (str "roles/admin"), none, none, some (str "GA"),
   some [str "compute.instances.get", str "compute.instances.delete"], none⟩

/-- A role list whose single role lists the same permission twice —
legal JSON input, used to separate the code from the claimed
one-summary-per-role reading. -/
def dupPermRole : RoleInput :=
  ⟨some (str "roles/r1"), some (str "T1"), none, none,
   some [str "x.y.z", str "x.y.z"], none⟩

/-! ## Helper lemmas -/

/-- A string-accumulating `foldl` is the initial value followed by the
flattened per-element strings. -/
theorem foldl_append_eq (f : α → Str) :
    ∀ (l : List α) (init : Str),
      l.foldl (fun acc x => acc ++ f x) init = init ++ (l.map f).flatten := by
  intro l
  induction l with
  | nil => intro init; simp
  | cons x xs ih => intro init; simp [List.foldl_cons, ih, List.append_assoc]

/-- `lexLt` is asymmetric. -/
theorem lexLt_asymm : ∀ (a b : Str), lexLt a b = true → lexLt b a = false := by
  intro a
  induction a with
  | nil =>
    intro b h
    cases b with
    | nil => simp [lexLt] at h
    | cons y ys => simp [lexLt]
  | cons x xs ih =>
    intro b h
    cases b with
    | nil => simp [lexLt] at h
    | cons y ys =>
      simp only [lexLt] at h ⊢
      by_cases h1 : x < y
      · rw [if_neg (lt_asymm h1), if_pos h1]
      · by_cases h2 : y < x
        · rw [if_neg h1, if_pos h2] at h
          exact absurd h (by simp)
        · rw [if_neg h1, if_neg h2] at h
          rw [if_neg h2, if_neg h1]
          exact ih ys h

/-- Transitivity of the reflexive closure of `lexLt` (stated on the
negations, as the sortedness proofs consume it). -/
theorem lexLt_leTrans : ∀ (a b c : Str),
    lexLt b a = false → lexLt c b = false → lexLt c a = false := by
  intro a
  induction a with
  | nil => intro b c _ _; cases c <;> simp [lexLt]
  | cons x xs ih =>
    intro b c h1 h2
    cases b with
    | nil => simp [lexLt] at h1
    | cons y ys =>
      cases c with
      | nil => simp [lexLt] at h2
      | cons z zs =>
        simp only [lexLt] at h1 h2 ⊢
        by_cases hyx : y < x
        · rw [if_pos hyx] at h1
          exact absurd h1 (by simp)
        by_cases hzy : z < y
        · rw [if_pos hzy] at h2
          exact absurd h2 (by simp)
        have hxy : x ≤ y := not_lt.mp hyx
        have hyz : y ≤ z := not_lt.mp hzy
        have hzx : ¬ z < x := not_lt.mpr (le_trans hxy hyz)
        by_cases hxz : x < z
        · rw [if_neg hzx, if_pos hxz]
        · have hxey : x = y := le_antisymm hxy (le_trans hyz (not_lt.mp hxz))
          have hyez : y = z := le_antisymm hyz (le_trans (not_lt.mp hxz) hxy)
          have hnxy : ¬ x < y := by rw [hxey]; exact lt_irrefl y
          have hnyz : ¬ y < z := by rw [hyez]; exact lt_irrefl z
          rw [if_neg hyx, if_neg hnxy] at h1
          rw [if_neg hzy, if_neg hnyz] at h2
          rw [if_neg hzx, if_neg hxz]
          exact ih ys zs h1 h2

/-- Two strings neither of which is lexicographically below the other are
equal. -/
theorem lexLt_connex : ∀ (a b : Str),
    lexLt a b = false → lexLt b a = false → a = b := by
  intro a
  induction a with
  | nil =>
    intro b h1 _
    cases b with
    | nil => rfl
    | cons y ys => simp [lexLt] at h1
  | cons x xs ih =>
    intro b h1 h2
    cases b with
    | nil => simp [lexLt] at h2
    | cons y ys =>
      simp only [lexLt] at h1 h2
      by_cases hxy : x < y
      · simp [hxy] at h1
      by_cases hyx : y < x
      · simp [hyx] at h2
      simp only [hxy, hyx, if_false] at h1 h2
      have : x = y := le_antisymm (not_lt.mp hyx) (not_lt.mp hxy)
      rw [this, ih ys h1 h2]

/-- Inserting permutes to consing. -/
theorem perm_insertLt (lt : α → α → Bool) (x : α) :
    ∀ (l : List α), List.Perm (insertLt lt x l) (x :: l) := by
  intro l
  induction l with
  | nil => simp [insertLt]
  | cons y ys ih =>
    simp only [insertLt]
    by_cases h : lt y x = true
    · rw [if_pos h]
      exact ((ih.cons y).trans (List.Perm.swap x y ys))
    · rw [if_neg h]

/-- `sortLt` permutes its input. -/
theorem perm_sortLt (lt : α → α → Bool) :
    ∀ (l : List α), List.Perm (sortLt lt l) l := by
  intro l
  induction l with
  | nil => simp [sortLt]
  | cons x xs ih => exact (perm_insertLt lt x (sortLt lt xs)).trans (ih.cons x)

/-- Insertion preserves sortedness w.r.t. the non-strict companion of
`lt`, given asymmetry and transitivity of the companion. -/
theorem pairwise_insertLt (lt : α → α → Bool)
    (hA : ∀ a b, lt a b = true → lt b a = false)
    (hT : ∀ a b c, lt b a = false → lt c b = false → lt c a = false) (x : α) :
    ∀ (l : List α), l.Pairwise (fun a b => lt b a = false) →
      (insertLt lt x l).Pairwise (fun a b => lt b a = false) := by
  intro l
  induction l with
  | nil => intro _; simp [insertLt]
  | cons y ys ih =>
    intro hp
    rw [List.pairwise_cons] at hp
    simp only [insertLt]
    by_cases h : lt y x = true
    · rw [if_pos h, List.pairwise_cons]
      refine ⟨?_, ih hp.2⟩
      intro z hz
      rcases List.mem_cons.mp ((perm_insertLt lt x ys).mem_iff.mp hz) with hzx | hzy
      · rw [hzx]
        exact hA y x h
      · exact hp.1 z hzy
    · rw [if_neg h, List.pairwise_cons]
      have hyx : lt y x = false := by
        cases hxy : lt y x
        · rfl
        · exact absurd hxy h
      refine ⟨?_, List.pairwise_cons.mpr hp⟩
      intro z hz
      rcases List.mem_cons.mp hz with hzy | hzys
      · rw [hzy]
        exact hyx
      · exact hT x y z hyx (hp.1 z hzys)

/-- `sortLt` sorts w.r.t. the non-strict companion of `lt`. -/
theorem pairwise_sortLt (lt : α → α → Bool)
    (hA : ∀ a b, lt a b = true → lt b a = false)
    (hT : ∀ a b c, lt b a = false → lt c b = false → lt c a = false) :
    ∀ (l : List α), (sortLt lt l).Pairwise (fun a b => lt b a = false) := by
  intro l
  induction l with
  | nil => simp [sortLt]
  | cons x xs ih => exact pairwise_insertLt lt hA hT x (sortLt lt xs) ih

/-- `split` on dots never returns an empty list (Python returns `[""]` for
the empty string). -/
theorem splitOnDot_ne_nil : ∀ (s : Str), splitOnDot s ≠ [] := by
  intro s
  cases s with
  | nil => simp [splitOnDot]
  | cons c rest =>
    simp only [splitOnDot]
    by_cases h : c = '.'
    · rw [if_pos h]
      simp
    · rw [if_neg h]
      cases splitOnDot rest <;> simp

/-- Joining the segments of `split` on dots with dots recovers the string:
the split loses no characters and cuts exactly at dots. -/
theorem joinDots_splitOnDot : ∀ (s : Str), joinDots (splitOnDot s) = s := by
  intro s
  induction s with
  | nil => rfl
  | cons c rest ih =>
    simp only [splitOnDot]
    by_cases h : c = '.'
    · rw [if_pos h]
      rcases hs : splitOnDot rest with _ | ⟨s₁, ss⟩
      · exact absurd hs (splitOnDot_ne_nil rest)
      · rw [hs] at ih
        simp only [joinDots, h]
        rw [ih]
        rfl
    · rw [if_neg h]
      rcases hs : splitOnDot rest with _ | ⟨s₁, ss⟩
      · exact absurd hs (splitOnDot_ne_nil rest)
      · rw [hs] at ih
        cases ss with
        | nil => simp only [joinDots] at ih ⊢; rw [ih]
        | cons s₂ ss₂ =>
          simp only [joinDots] at ih ⊢
          rw [List.cons_append, ih]

/-- No segment produced by `split` on dots contains a dot. -/
theorem not_dot_mem_splitOnDot : ∀ (s : Str), ∀ p ∈ splitOnDot s, '.' ∉ p := by
  intro s
  induction s with
  | nil => intro p hp; simp [splitOnDot] at hp; simp [hp]
  | cons c rest ih =>
    intro p hp
    simp only [splitOnDot] at hp
    by_cases h : c = '.'
    · rw [if_pos h] at hp
      rcases List.mem_cons.mp hp with h1 | h1
      · simp [h1]
      · exact ih p h1
    · rw [if_neg h] at hp
      rcases hs : splitOnDot rest with _ | ⟨s₁, ss⟩
      · exact absurd hs (splitOnDot_ne_nil rest)
      · rw [hs] at hp
        rcases List.mem_cons.mp hp with h1 | h1
        · rw [h1]
          intro hmem
          rcases List.mem_cons.mp hmem with h2 | h2
          · exact h h2.symm
          · exact ih s₁ (hs ▸ List.mem_cons_self s₁ ss) h2
        · exact ih p (hs ▸ List.mem_cons_of_mem s₁ h1)

/-- The fuel argument of `replaceAllAux` is irrelevant once it covers the
string length. -/
theorem replaceAllAux_fuel (pat rep : Str) :
    ∀ (s : Str) (fuel₁ fuel₂ : Nat), s.length ≤ fuel₁ → s.length ≤ fuel₂ →
      replaceAllAux pat rep fuel₁ s = replaceAllAux pat rep fuel₂ s := by
  have key : ∀ (n : Nat) (s : Str) (fuel₁ fuel₂ : Nat), s.length ≤ n →
      s.length ≤ fuel₁ → s.length ≤ fuel₂ →
      replaceAllAux pat rep fuel₁ s = replaceAllAux pat rep fuel₂ s := by
    intro n
    induction n with
    | zero =>
      intro s fuel₁ fuel₂ hn _ _
      have : s = [] := List.eq_nil_of_length_eq_zero (Nat.le_zero.mp hn)
      subst this
      cases fuel₁ <;> cases fuel₂ <;> rfl
    | succ n ihn =>
      intro s fuel₁ fuel₂ hn h1 h2
      cases s with
      | nil => cases fuel₁ <;> cases fuel₂ <;> rfl
      | cons c rest =>
        cases fuel₁ with
        | zero => simp at h1
        | succ f1 =>
          cases fuel₂ with
          | zero => simp at h2
          | succ f2 =>
            simp only [replaceAllAux]
            by_cases h : pat ≠ [] ∧ pat.isPrefixOf (c :: rest)
            · rw [if_pos h, if_pos h]
              congr 1
              apply ihn
              · rw [List.length_drop]
                simp only [List.length_cons] at hn
                omega
              · rw [List.length_drop]
                simp only [List.length_cons] at h1
                omega
              · rw [List.length_drop]
                simp only [List.length_cons] at h2
                omega
            · rw [if_neg h, if_neg h]
              congr 1
              apply ihn <;> (simp only [List.length_cons] at hn h1 h2; omega)
  intro s fuel₁ fuel₂ h1 h2
  exact key s.length s fuel₁ fuel₂ le_rfl h1 h2

/-- One-step unfolding of `replaceAll` on a nonempty string. -/
theorem replaceAll_cons (pat rep : Str) (c : Char) (rest : Str) :
    replaceAll pat rep (c :: rest) =
      if pat ≠ [] ∧ pat.isPrefixOf (c :: rest) then
        rep ++ replaceAll pat rep (rest.drop (pat.length - 1))
      else
        c :: replaceAll pat rep rest := by
  simp only [replaceAll, List.length_cons, replaceAllAux]
  by_cases h : pat ≠ [] ∧ pat.isPrefixOf (c :: rest)
  · rw [if_pos h, if_pos h]
    congr 1
    apply replaceAllAux_fuel
    · rw [List.length_drop]
      omega
    · exact le_rfl
  · rw [if_neg h, if_neg h]

/-- `str.replace` is the identity when the pattern does not occur. -/
theorem replaceAll_of_not_hasSub (pat rep : Str) :
    ∀ (s : Str), hasSub pat s = false → replaceAll pat rep s = s := by
  intro s
  induction s with
  | nil => intro _; rfl
  | cons c rest ih =>
    intro h
    simp only [hasSub, Bool.or_eq_false_iff] at h
    rw [replaceAll_cons, if_neg (fun hc => by rw [h.1] at hc; exact absurd hc.2 (by simp)),
      ih h.2]

/-- `str.replace` consumes a leading occurrence of the pattern. -/
theorem replaceAll_append_self (pat rep : Str) (s : Str) (h : pat ≠ []) :
    replaceAll pat rep (pat ++ s) = rep ++ replaceAll pat rep s := by
  rcases hp : pat with _ | ⟨p, ps⟩
  · exact absurd hp h
  · rw [← hp, hp, List.cons_append, replaceAll_cons, ← List.cons_append, ← hp]
    rw [if_pos ⟨h, List.isPrefixOf_iff_prefix.mpr (List.prefix_append pat s)⟩]
    have : pat.length - 1 = ps.length := by rw [hp]; simp
    rw [this, hp]
    simp only [List.cons_append] at *
    rw [List.drop_left]

/-- Replacing a single-character pattern is a character-wise substitution. -/
theorem replaceAll_singleton (c d : Char) :
    ∀ (s : Str), replaceAll [c] [d] s = s.map (fun x => if x = c then d else x) := by
  intro s
  induction s with
  | nil => rfl
  | cons x rest ih =>
    rw [replaceAll_cons]
    by_cases h : x = c
    · rw [if_pos ⟨by simp, by simp [List.isPrefixOf, h]⟩]
      simp only [List.length_cons, List.length_nil, Nat.add_sub_cancel, List.drop_zero,
        List.map_cons, if_pos h]
      rw [ih]
      rfl
    · rw [if_neg (fun hc => by
        have := List.isPrefixOf_iff_prefix.mp hc.2
        rcases this with ⟨t, ht⟩
        simp only [List.cons_append] at ht
        exact h (List.cons.inj ht).1.symm)]
      simp only [List.map_cons, if_neg h]
      rw [ih]

/-- The inner loop of `build_dataset` appends one summary per occurrence
of `q` in the processed permission list. -/
theorem grantFold_snd (s : RoleSummary) :
    ∀ (perms : List Str) (st : List Str × PermMap) (q : Str),
      ((perms.foldl (grantStep s) st).2) q =
        st.2 q ++ List.replicate (perms.count q) s := by
  intro perms
  induction perms with
  | nil => intro st q; simp
  | cons p rest ih =>
    intro st q
    rw [List.foldl_cons, ih]
    simp only [grantStep]
    by_cases h : q = p
    · subst h
      rw [if_pos rfl, List.count_cons_self, List.append_assoc, List.singleton_append,
        ← List.replicate_succ]
    · rw [if_neg h, List.count_cons_of_ne h]

/-- The whole first pass appends, for each role in order, one summary
per occurrence of `q` in the permission list of each role. -/
theorem roleFold_snd :
    ∀ (roles : List RoleInput) (st : List Str × PermMap) (q : Str),
      ((roles.foldl roleStep st).2) q =
        st.2 q ++ (roles.map (fun r =>
          List.replicate ((r.includedPermissions.getD []).count q) (summaryOf r))).flatten := by
  intro roles
  induction roles with
  | nil => intro st q; simp
  | cons r rest ih =>
    intro st q
    rw [List.foldl_cons, ih]
    simp only [roleStep]
    rw [grantFold_snd]
    simp [List.append_assoc]

/-- Membership in the seen-permissions accumulator after the inner loop. -/
theorem grantFold_fst_mem (s : RoleSummary) :
    ∀ (perms : List Str) (st : List Str × PermMap) (a : Str),
      (a ∈ (perms.foldl (grantStep s) st).1 ↔ a ∈ st.1 ∨ a ∈ perms) := by
  intro perms
  induction perms with
  | nil => intro st a; simp
  | cons p rest ih =>
    intro st a
    rw [List.foldl_cons, ih]
    simp only [grantStep, List.mem_cons]
    by_cases hp : p ∈ st.1
    · rw [if_pos hp]
      constructor
      · rintro (h | h)
        · exact Or.inl h
        · exact Or.inr (Or.inr h)
      · rintro (h | rfl | h)
        · exact Or.inl h
        · exact Or.inl hp
        · exact Or.inr h
    · rw [if_neg hp]
      simp only [List.mem_append, List.mem_singleton]
      rw [or_assoc]

/-- The seen-permissions accumulator stays duplicate-free. -/
theorem grantFold_fst_nodup (s : RoleSummary) :
    ∀ (perms : List Str) (st : List Str × PermMap),
      st.1.Nodup → (perms.foldl (grantStep s) st).1.Nodup := by
  intro perms
  induction perms with
  | nil => intro st h; exact h
  | cons p rest ih =>
    intro st h
    rw [List.foldl_cons]
    apply ih
    simp only [grantStep]
    by_cases hp : p ∈ st.1
    · rw [if_pos hp]
      exact h
    · rw [if_neg hp]
      rw [List.nodup_append]
      exact ⟨h, List.nodup_singleton p,
        fun a ha hpa => hp ((List.mem_singleton.mp hpa) ▸ ha)⟩

/-- Membership in the seen-permissions accumulator after the whole pass:
exactly the permissions granted by some processed role. -/
theorem roleFold_fst_mem :
    ∀ (roles : List RoleInput) (st : List Str × PermMap) (a : Str),
      (a ∈ (roles.foldl roleStep st).1 ↔
        a ∈ st.1 ∨ ∃ r ∈ roles, a ∈ r.includedPermissions.getD []) := by
  intro roles
  induction roles with
  | nil => intro st a; simp
  | cons r rest ih =>
    intro st a
    rw [List.foldl_cons, ih]
    simp only [roleStep]
    rw [grantFold_fst_mem, or_assoc]
    apply or_congr_right
    constructor
    · rintro (h | ⟨r', hr', ha⟩)
      · exact ⟨r, List.mem_cons_self r rest, h⟩
      · exact ⟨r', List.mem_cons_of_mem r hr', ha⟩
    · rintro ⟨r', hr', ha⟩
      rcases List.mem_cons.mp hr' with rfl | hr'
      · exact Or.inl ha
      · exact Or.inr ⟨r', hr', ha⟩

/-- The seen-permissions list of the whole pass is duplicate-free. -/
theorem roleFold_fst_nodup :
    ∀ (roles : List RoleInput) (st : List Str × PermMap),
      st.1.Nodup → (roles.foldl roleStep st).1.Nodup := by
  intro roles
  induction roles with
  | nil => intro st h; exact h
  | cons r rest ih =>
    intro st h
    rw [List.foldl_cons]
    exact ih _ (grantFold_fst_nodup (summaryOf r) _ st h)

/-- In a duplicate-free list every member occurs exactly once. -/
theorem count_nodup_mem {l : List Str} {a : Str} (hd : l.Nodup) (h : a ∈ l) :
    l.count a = 1 := by
  induction l with
  | nil => simp at h
  | cons x xs ih =>
    rw [List.nodup_cons] at hd
    by_cases hax : a = x
    · subst hax
      rw [List.count_cons_self, List.count_eq_zero_of_not_mem hd.1]
    · rcases List.mem_cons.mp h with h1 | h1
      · exact absurd h1 hax
      · rw [List.count_cons_of_ne hax, ih hd.2 h1]

/-- When every role lists its permissions without duplicates, the grantor
list collapses to one summary per granting role, in input order. -/
theorem flatten_replicate_filter (q : Str) :
    ∀ (roles : List RoleInput), (∀ r ∈ roles, (r.includedPermissions.getD []).Nodup) →
      (roles.map (fun r =>
        List.replicate ((r.includedPermissions.getD []).count q) (summaryOf r))).flatten =
      (roles.filter (fun r => decide (q ∈ r.includedPermissions.getD []))).map summaryOf := by
  intro roles
  induction roles with
  | nil => intro _; simp
  | cons r rest ih =>
    intro h
    simp only [List.map_cons, List.flatten_cons, List.filter_cons]
    by_cases hq : q ∈ r.includedPermissions.getD []
    · rw [count_nodup_mem (h r (List.mem_cons_self r rest)) hq]
      rw [if_pos (decide_eq_true hq)]
      rw [List.replicate_one, List.singleton_append, List.map_cons,
        ih (fun r' hr' => h r' (List.mem_cons_of_mem r hr'))]
    · rw [List.count_eq_zero_of_not_mem hq]
      rw [if_neg (by simp [hq])]
      rw [List.replicate_zero, List.nil_append,
        ih (fun r' hr' => h r' (List.mem_cons_of_mem r hr'))]

/-- `hexDigit` never produces `<`. -/
theorem hexDigit_ne_lt (n : Nat) : hexDigit n ≠ '<' := by
  unfold hexDigit
  split <;> decide

/-- `urllib.parse.quote` never emits a `<` for a single character. -/
theorem lt_not_mem_quoteChar (c : Char) : '<' ∉ quoteChar c := by
  unfold quoteChar
  by_cases h : isSafeChar c = true
  · rw [if_pos h]
    intro hm
    rw [List.mem_singleton] at hm
    rw [← hm] at h
    exact absurd h (by decide)
  · rw [if_neg h]
    intro hm
    rw [List.mem_flatten] at hm
    obtain ⟨l, hl, hml⟩ := hm
    rw [List.mem_map] at hl
    obtain ⟨b, _, rfl⟩ := hl
    simp only [pctByte] at hml
    rcases List.mem_cons.mp hml with h1 | h1
    · exact absurd h1 (by decide)
    rcases List.mem_cons.mp h1 with h2 | h2
    · exact hexDigit_ne_lt _ h2.symm
    rcases List.mem_cons.mp h2 with h3 | h3
    · exact hexDigit_ne_lt _ h3.symm
    · simp at h3

/-- `urllib.parse.quote` never emits a `<`. -/
theorem lt_not_mem_pyQuote (s : Str) : '<' ∉ pyQuote s := by
  intro hm
  rw [pyQuote, List.mem_flatten] at hm
  obtain ⟨l, hl, hml⟩ := hm
  rw [List.mem_map] at hl
  obtain ⟨c, _, rfl⟩ := hl
  exact lt_not_mem_quoteChar c hml

/-- Count form of the previous lemma. -/
theorem count_lt_pyQuote (s : Str) : (pyQuote s).count '<' = 0 :=
  List.count_eq_zero.mpr (lt_not_mem_pyQuote s)

/-- Counting a character in a flattened map whose pieces each contain it
`k` times. -/
theorem count_flatten_const (ch : Char) (f : α → Str) (k : Nat) :
    ∀ (l : List α), (∀ x ∈ l, (f x).count ch = k) →
      ((l.map f).flatten).count ch = k * l.length := by
  intro l
  induction l with
  | nil => intro _; simp
  | cons x xs ih =>
    intro h
    simp only [List.map_cons, List.flatten_cons, List.count_append, List.length_cons]
    rw [h x (List.mem_cons_self x xs), ih (fun y hy => h y (List.mem_cons_of_mem x hy)),
      Nat.mul_succ]
    omega

/-- Combine two `Pairwise` facts pointwise. -/
theorem pairwise_combine {R S T : α → α → Prop} :
    ∀ {l : List α}, l.Pairwise R → l.Pairwise S →
      (∀ a b, R a b → S a b → T a b) → l.Pairwise T := by
  intro l
  induction l with
  | nil => intro _ _ _; exact List.Pairwise.nil
  | cons x xs ih =>
    intro hR hS h
    rw [List.pairwise_cons] at hR hS ⊢
    exact ⟨fun b hb => h x b (hR.1 b hb) (hS.1 b hb), ih hR.2 hS.2 h⟩

/-- Mapping the slash-substitution over a slash-free string is the
identity. -/
theorem map_slash_id : ∀ (s : Str), '/' ∉ s →
    s.map (fun c => if c = '/' then '_' else c) = s := by
  intro s
  induction s with
  | nil => intro _; rfl
  | cons c cs ih =>
    intro h
    simp only [List.mem_cons, not_or] at h
    simp only [List.map_cons]
    rw [if_neg (fun h0 => h.1 h0.symm), ih h.2]

/-! ## Claims -/

/-- Claim C3: for every permission name, splitting on `.` yields
service = first segment, resource = second segment or empty, action =
third segment or empty; later segments are ignored and short names never
error.  The split is pinned down semantically: it is never empty, joining
the segments with dots recovers the name, and no segment contains a dot.
The two concrete examples of the claim are included. -/
theorem c3_permission_name_splitting (m : PermMap) (p : Str) :
    splitOnDot p ≠ [] ∧
    joinDots (splitOnDot p) = p ∧
    (∀ seg ∈ splitOnDot p, '.' ∉ seg) ∧
    (permEntry m p).service = (splitOnDot p).getD 0 [] ∧
    (permEntry m p).resource = (splitOnDot p).getD 1 [] ∧
    (permEntry m p).action = (splitOnDot p).getD 2 [] ∧
    permEntry m (str "compute.instances.get") =
      ⟨str "compute.instances.get", str "compute", str "instances", str "get",
       m (str "compute.instances.get")⟩ ∧
    permEntry m (str "iam") = ⟨str "iam", str "iam", [], [], m (str "iam")⟩ :=
  ⟨splitOnDot_ne_nil p, joinDots_splitOnDot p, not_dot_mem_splitOnDot p,
   rfl, rfl, rfl, rfl, rfl⟩

/-- Witness for C3 at the concrete inputs of the claim. -/
theorem c3_witness :
    '.' ∉ str "compute" ∧
    (permEntry (fun _ => ([] : List RoleSummary)) (str "iam")).resource = [] :=
  ⟨(c3_permission_name_splitting (fun _ => []) (str "compute.instances.get")).2.2.1
      (str "compute") (by decide),
   ((c3_permission_name_splitting (fun _ => []) (str "iam")).2.2.2.2.1).trans (by decide)⟩

/-- Claim C4: `get_stage_badge` maps every stage case-insensitively to one
of the four badge classes; an unrecognized or empty (Python-falsy) stage
gets the GA class, and an empty stage displays the literal text `GA`. -/
theorem c4_stage_badge (s t : Str) :
    (badgeClass s = str "badge-ga" ∨ badgeClass s = str "badge-beta" ∨
     badgeClass s = str "badge-alpha" ∨ badgeClass s = str "badge-deprecated") ∧
    (lower s = lower t → badgeClass s = badgeClass t) ∧
    (s ≠ [] → lower s ∉ [str "ga", str "beta", str "alpha", str "deprecated"] →
      badgeClass s = str "badge-ga") ∧
    (s = [] → get_stage_badge s = str "<span class=\"badge badge-ga\">GA</span>") := by
  refine ⟨?_, ?_, ?_, ?_⟩
  · simp only [badgeClass]
    by_cases h : (if s = [] then str "ga" else lower s) ∈
        [str "ga", str "beta", str "alpha", str "deprecated"]
    · rw [if_pos h]
      simp only [List.mem_cons, List.not_mem_nil, or_false] at h
      rcases h with h | h | h | h <;> rw [h]
      · exact Or.inl rfl
      · exact Or.inr (Or.inl rfl)
      · exact Or.inr (Or.inr (Or.inl rfl))
      · exact Or.inr (Or.inr (Or.inr rfl))
    · rw [if_neg h]
      exact Or.inl rfl
  · intro hlt
    by_cases hs : s = []
    · have ht : t = [] := by
        rw [hs] at hlt
        simp only [lower, List.map_nil] at hlt
        exact List.map_eq_nil_iff.mp hlt.symm
      rw [hs, ht]
    · have ht : t ≠ [] := by
        intro h0
        rw [h0] at hlt
        simp only [lower, List.map_nil] at hlt
        exact hs (List.map_eq_nil_iff.mp hlt)
      simp only [badgeClass, if_neg hs, if_neg ht, hlt]
  · intro hs hmem
    simp only [badgeClass, if_neg hs]
    rw [if_neg hmem]
  · intro hs
    rw [hs]
    decide

/-- Witness for C4: case-insensitivity, an unrecognized stage, and the
empty-stage rendering. -/
theorem c4_witness :
    badgeClass (str "BETA") = badgeClass (str "beta") ∧
    badgeClass (str "Weird") = str "badge-ga" ∧
    get_stage_badge [] = str "<span class=\"badge badge-ga\">GA</span>" :=
  ⟨(c4_stage_badge (str "BETA") (str "beta")).2.1 (by decide),
   (c4_stage_badge (str "Weird") (str "Weird")).2.2.1 (by decide) (by decide),
   (c4_stage_badge [] []).2.2.2 rfl⟩

/-- Counterexample to claim C5 as stated: Python
`name.replace("roles/", "")` removes every occurrence of the substring
`roles/`, not only a leading prefix, so on `roles/roles/x` the code
produces `x.html` while the claimed prefix-stripping produces
`roles_x.html`. -/
theorem c5_counterexample :
    roleFilename (str "roles/roles/x") = str "x.html" ∧
    roleFilenameClaim (str "roles/roles/x") = str "roles_x.html" ∧
    roleFilename (str "roles/roles/x") ≠ roleFilenameClaim (str "roles/roles/x") :=
  ⟨by decide, by decide, by decide⟩

/-- Claim C5 (amended): the permission filename replaces every `/` by `_`
and appends `.html` (so a slash-free name is unchanged); the role
filename removes every occurrence of the substring `roles/` and then
replaces `/` by `_`, which agrees with stripping the `roles/` prefix
whenever `roles/` occurs only as the leading prefix. -/
theorem c5_filenames_amended (name : Str) :
    permFilename name = name.map (fun c => if c = '/' then '_' else c) ++ str ".html" ∧
    ('/' ∉ name → permFilename name = name ++ str ".html") ∧
    ((str "roles/").isPrefixOf name →
      hasSub (str "roles/") (name.drop 6) = false →
      roleFilename name = roleFilenameClaim name) := by
  have hslash : str "/" = ['/'] := rfl
  have hunder : str "_" = ['_'] := rfl
  refine ⟨?_, ?_, ?_⟩
  · rw [permFilename, hslash, hunder, replaceAll_singleton]
  · intro h
    rw [permFilename, hslash, hunder, replaceAll_singleton, map_slash_id name h]
  · intro hpre hsub
    obtain ⟨t, ht⟩ := List.isPrefixOf_iff_prefix.mp hpre
    have hdrop : name.drop 6 = t := by
      rw [← ht]
      have h6 : (str "roles/").length = 6 := by decide
      rw [← h6, List.drop_left]
    rw [roleFilename, roleFilenameClaim, if_pos hpre]
    have h6 : (str "roles/").length = 6 := by decide
    rw [h6, hdrop, ← ht, replaceAll_append_self _ _ _ (by decide),
      replaceAll_of_not_hasSub _ _ t (by rw [← hdrop]; exact hsub)]
    rfl

/-- Witness for C5 (amended) at the concrete inputs of the claim. -/
theorem c5_witness :
    permFilename (str "compute.instances.get") = str "compute.instances.get.html" ∧
    roleFilename (str "roles/compute.admin") = str "compute.admin.html" :=
  ⟨((c5_filenames_amended (str "compute.instances.get")).2.1 (by decide)).trans (by decide),
   ((c5_filenames_amended (str "roles/compute.admin")).2.2 (by decide) (by decide)).trans
     (by decide)⟩

/-- Claim C8: the meta description of the role page is the title, a separating
`" - "` (present in the f-string of the code), and the description — truncated
to its first 150 characters plus an ellipsis exactly when the description
is longer than 150 characters.  In the truncated case the length is fixed
at `title.length + 156`. -/
theorem c8_role_meta_description (rd : RoleRecord) :
    (rd.description.length ≤ 150 →
      roleMetaDescription rd = rd.title ++ str " - " ++ rd.description) ∧
    (150 < rd.description.length →
      roleMetaDescription rd =
        rd.title ++ str " - " ++ rd.description.take 150 ++ str "..." ∧
      (roleMetaDescription rd).length = rd.title.length + 156) := by
  constructor
  · intro h
    rw [roleMetaDescription, if_neg (by omega)]
  · intro h
    have he : roleMetaDescription rd =
        rd.title ++ str " - " ++ rd.description.take 150 ++ str "..." := by
      rw [roleMetaDescription, if_pos h]
    refine ⟨he, ?_⟩
    rw [he]
    have h3 : (str " - ").length = 3 := by decide
    have hd : (str "...").length = 3 := by decide
    simp only [List.length_append, List.length_take, h3, hd]
    omega

/-- Witness for C8: one description below and one above the threshold. -/
theorem c8_witness :
    roleMetaDescription ⟨str "n", str "T", str "d", str "GA", [], []⟩ =
      str "T" ++ str " - " ++ str "d" ∧
    roleMetaDescription ⟨str "n", str "T", List.replicate 151 'd', str "GA", [], []⟩ =
      str "T" ++ str " - " ++ (List.replicate 151 'd').take 150 ++ str "..." :=
  ⟨(c8_role_meta_description ⟨str "n", str "T", str "d", str "GA", [], []⟩).1 (by decide),
   ((c8_role_meta_description
      ⟨str "n", str "T", List.replicate 151 'd', str "GA", [], []⟩).2 (by decide)).1⟩

/-- Claim C10: `generate_role_page` never reads its `permission_to_roles`
parameter, so its output is the same for any two values of it. -/
theorem c10_role_page_ignores_permission_map (rd : RoleRecord) (m₁ m₂ : PermMap) :
    generate_role_page rd m₁ = generate_role_page rd m₂ := rfl

/-- Claim C1: the permission names of the dataset built by
`build_dataset` are exactly the names appearing in at least one role record under
`includedPermissions` (no extras, no omissions), each exactly once, and
the records appear in strictly ascending lexicographic order of name. -/
theorem c1_permission_index_sorted_set (roles : List RoleInput) (now : Str) :
    (∀ a, a ∈ ((build_dataset roles now).permissions).map (fun p => p.name) ↔
      ∃ r ∈ roles, a ∈ r.includedPermissions.getD []) ∧
    (((build_dataset roles now).permissions).map (fun p => p.name)).Nodup ∧
    (((build_dataset roles now).permissions).map (fun p => p.name)).Pairwise
      (fun a b => lexLt a b = true) := by
  have hmap : ((build_dataset roles now).permissions).map (fun p => p.name) =
      sortLt lexLt (invertRoles roles).1 := by
    simp only [build_dataset]
    rw [List.map_map]
    have hcomp : ((fun p => PermissionRecord.name p) ∘ permEntry (invertRoles roles).2) =
        id := funext fun q => rfl
    rw [hcomp, List.map_id]
  have hseen : ∀ a, a ∈ (invertRoles roles).1 ↔
      ∃ r ∈ roles, a ∈ r.includedPermissions.getD [] := by
    intro a
    rw [invertRoles, roleFold_fst_mem]
    simp
  have hnodup : (invertRoles roles).1.Nodup := by
    rw [invertRoles]
    exact roleFold_fst_nodup roles _ (by simp)
  have hperm := perm_sortLt lexLt (invertRoles roles).1
  refine ⟨?_, ?_, ?_⟩
  · intro a
    rw [hmap, hperm.mem_iff, hseen]
  · rw [hmap]
    exact hperm.nodup_iff.mpr hnodup
  · rw [hmap]
    have hp1 := pairwise_sortLt lexLt lexLt_asymm lexLt_leTrans (invertRoles roles).1
    have hp2 : (sortLt lexLt (invertRoles roles).1).Nodup := hperm.nodup_iff.mpr hnodup
    exact pairwise_combine hp1 hp2 (fun a b h1 h2 => by
      cases hab : lexLt a b
      · exact absurd (lexLt_connex a b hab h1) h2
      · rfl)

/-- Counterexample to claim C2 as stated: a role whose
`includedPermissions` lists the same name twice is appended to that
grantor list of that permission once per occurrence, so the grantor list holds
two copies of the role summary where the claimed
one-summary-per-granting-role list holds one. -/
theorem c2_counterexample :
    (build_dataset [dupPermRole] (str "t")).permissions.map (fun p => p.granted_by_roles) =
      [[⟨str "roles/r1", str "T1", str "GA"⟩, ⟨str "roles/r1", str "T1", str "GA"⟩]] ∧
    ([dupPermRole].filter (fun r =>
        decide ((str "x.y.z") ∈ r.includedPermissions.getD []))).map summaryOf =
      [⟨str "roles/r1", str "T1", str "GA"⟩] ∧
    (build_dataset [dupPermRole] (str "t")).permissions.map (fun p => p.granted_by_roles) ≠
      [([dupPermRole].filter (fun r =>
          decide ((str "x.y.z") ∈ r.includedPermissions.getD []))).map summaryOf] :=
  ⟨by decide, by decide, by decide⟩

/-- Claim C2 (amended with the proviso the counterexample forces: every
role lists its permissions without duplicates): for every permission
record of the built dataset, `granted_by_roles` is exactly the list of
`(name, title, stage)` summaries of the roles whose `includedPermissions`
contain the permission name, in input (discovery) order, with the stage
defaulting to `GA` when absent. -/
theorem c2_granted_by_roles (roles : List RoleInput) (now : Str) (p : PermissionRecord)
    (hnd : ∀ r ∈ roles, (r.includedPermissions.getD []).Nodup)
    (hp : p ∈ (build_dataset roles now).permissions) :
    p.granted_by_roles =
      (roles.filter (fun r => decide (p.name ∈ r.includedPermissions.getD []))).map
        summaryOf := by
  simp only [build_dataset] at hp
  rw [List.mem_map] at hp
  obtain ⟨q, hq, rfl⟩ := hp
  show (invertRoles roles).2 q = _
  rw [invertRoles, roleFold_snd]
  rw [show ((([] : List Str), (fun _ => [] : PermMap)).2 q) = [] from rfl, List.nil_append]
  rw [flatten_replicate_filter q roles hnd]
  rfl

/-- Witness for C2 at the end-to-end scenario of the specification. -/
theorem c2_witness :
    (⟨str "compute.instances.get", str "compute", str "instances", str "get",
      [⟨str "roles/viewer", [], str "GA"⟩, ⟨str "roles/admin", [], str "GA"⟩]⟩ :
      PermissionRecord).granted_by_roles =
      ([viewerRole, adminRole].filter (fun r =>
        decide ((str "compute.instances.get") ∈ r.includedPermissions.getD []))).map
        summaryOf :=
  c2_granted_by_roles [viewerRole, adminRole] (str "t") _ (by decide) (by decide)

/-- Claim C9: every permission record of the built dataset has a
non-empty grantor list, because a permission enters the dataset only by
being seen in the grant list of some role, which appends the summary of that role
at the same time. -/
theorem c9_granted_by_roles_nonempty (roles : List RoleInput) (now : Str)
    (p : PermissionRecord) (hp : p ∈ (build_dataset roles now).permissions) :
    p.granted_by_roles ≠ [] := by
  simp only [build_dataset] at hp
  rw [List.mem_map] at hp
  obtain ⟨q, hq, rfl⟩ := hp
  have hq' : q ∈ (invertRoles roles).1 := (perm_sortLt lexLt _).mem_iff.mp hq
  rw [invertRoles] at hq'
  have hex : ∃ r ∈ roles, q ∈ r.includedPermissions.getD [] := by
    rcases (roleFold_fst_mem roles _ q).mp hq' with h | h
    · exact absurd h (List.not_mem_nil q)
    · exact h
  obtain ⟨r, hr, hqr⟩ := hex
  show (invertRoles roles).2 q ≠ []
  rw [invertRoles, roleFold_snd,
    show ((([] : List Str), (fun _ => [] : PermMap)).2 q) = [] from rfl, List.nil_append]
  intro hnil
  have hcount : (r.includedPermissions.getD []).count q ≠ 0 := by
    have := List.count_pos_iff.mpr hqr
    omega
  have hmem : summaryOf r ∈ (roles.map (fun r =>
      List.replicate ((r.includedPermissions.getD []).count q) (summaryOf r))).flatten :=
    List.mem_flatten.mpr ⟨_, List.mem_map_of_mem _ hr,
      List.mem_replicate.mpr ⟨hcount, rfl⟩⟩
  rw [hnil] at hmem
  exact absurd hmem (List.not_mem_nil _)

/-- Witness for C9 at the end-to-end scenario of the specification. -/
theorem c9_witness :
    (⟨str "compute.instances.get", str "compute", str "instances", str "get",
      [⟨str "roles/viewer", [], str "GA"⟩, ⟨str "roles/admin", [], str "GA"⟩]⟩ :
      PermissionRecord).granted_by_roles ≠ [] :=
  c9_granted_by_roles_nonempty [viewerRole, adminRole] (str "t") _ (by decide)

/-- Claim C6: the permission page lists the granting roles sorted
lexicographically by role name and the role page lists the included
permissions sorted lexicographically — the renderers sort the
discovery-order build-time lists at display time.  The displayed
sequences are permutations of the record lists, sorted, and the pages are
exactly the corresponding item strings in that order. -/
theorem c6_renderers_sort_at_display (pd : PermissionRecord) (rd : RoleRecord) :
    List.Perm (sortedGrantors pd) pd.granted_by_roles ∧
    (sortedGrantors pd).Pairwise (fun a b => lexLt b.name a.name = false) ∧
    generate_permission_page pd =
      permPagePre pd ++
      (if pd.granted_by_roles = [] then noGrantorsMsg
       else str "<ul class=\"list\">\n" ++ ((sortedGrantors pd).map roleItemHtml).flatten ++
         str "</ul>\n") ++
      generate_html_footer ∧
    List.Perm (sortedPermsOf rd) rd.included_permissions ∧
    (sortedPermsOf rd).Pairwise (fun a b => lexLt b a = false) ∧
    ∀ m : PermMap, generate_role_page rd m =
      rolePagePre rd ++
      (if rd.included_permissions = [] then noPermsMsg
       else str "<ul class=\"list\">\n" ++ ((sortedPermsOf rd).map permItemHtml).flatten ++
         str "</ul>\n") ++
      generate_html_footer := by
  have hroles : ∀ l, rolesListHtml l = (l.map roleItemHtml).flatten := fun l => by
    rw [rolesListHtml, foldl_append_eq, List.nil_append]
  have hperms : ∀ l, permsListHtml l = (l.map permItemHtml).flatten := fun l => by
    rw [permsListHtml, foldl_append_eq, List.nil_append]
  refine ⟨?_, ?_, ?_, ?_, ?_, ?_⟩
  · show List.Perm (sortLt (fun a b => lexLt a.name b.name) pd.granted_by_roles)
      pd.granted_by_roles
    exact perm_sortLt _ _
  · show (sortLt (fun a b => lexLt a.name b.name) pd.granted_by_roles).Pairwise
      (fun a b => lexLt b.name a.name = false)
    exact pairwise_sortLt (fun a b => lexLt a.name b.name)
      (fun a b h => lexLt_asymm a.name b.name h)
      (fun a b c h1 h2 => lexLt_leTrans a.name b.name c.name h1 h2)
      pd.granted_by_roles
  · rw [generate_permission_page, hroles]
  · show List.Perm (sortLt lexLt rd.included_permissions) rd.included_permissions
    exact perm_sortLt _ _
  · show (sortLt lexLt rd.included_permissions).Pairwise (fun a b => lexLt b a = false)
    exact pairwise_sortLt lexLt lexLt_asymm lexLt_leTrans rd.included_permissions
  · intro m
    rw [generate_role_page, hperms]

/-- Claim C7: the sitemap is the root entry followed by one entry per
role in input order and one per permission in input order, with no
re-sort; counting `<` (which the percent-encoded locs and the date can
never contain) shows it holds exactly `1 + len(roles) + len(permissions)`
`<url>` blocks of ten tags each, plus the three surrounding tags. -/
theorem c7_sitemap_entries (roles : List RoleRecord) (perms : List PermissionRecord)
    (now : Str) (h : '<' ∉ now) :
    generate_sitemap roles perms now =
      sitemapHeader now ++ (roles.map (roleUrlEntry now)).flatten ++
      (perms.map (permUrlEntry now)).flatten ++ str "</urlset>\n" ∧
    (generate_sitemap roles perms now).count '<' =
      3 + 10 * (1 + roles.length + perms.length) := by
  have heq : generate_sitemap roles perms now =
      sitemapHeader now ++ (roles.map (roleUrlEntry now)).flatten ++
      (perms.map (permUrlEntry now)).flatten ++ str "</urlset>\n" := by
    rw [generate_sitemap, foldl_append_eq, foldl_append_eq]
  refine ⟨heq, ?_⟩
  rw [heq]
  simp only [List.count_append]
  have hrole : ∀ r ∈ roles, (roleUrlEntry now r).count '<' = 10 := by
    intro r _
    simp only [roleUrlEntry, List.count_append]
    rw [count_lt_pyQuote, List.count_eq_zero.mpr h]
    decide
  have hperm : ∀ p ∈ perms, (permUrlEntry now p).count '<' = 10 := by
    intro p _
    simp only [permUrlEntry, List.count_append]
    rw [count_lt_pyQuote, List.count_eq_zero.mpr h]
    decide
  rw [count_flatten_const '<' _ 10 roles hrole, count_flatten_const '<' _ 10 perms hperm]
  have hh : (sitemapHeader now).count '<' = 12 := by
    simp only [sitemapHeader, List.count_append]
    rw [List.count_eq_zero.mpr h]
    decide
  have hf : (str "</urlset>\n").count '<' = 1 := by decide
  rw [hh, hf]
  omega

/-- Witness for C7 with a concrete date and empty lists. -/
theorem c7_witness :
    (generate_sitemap [] [] (str "2025-01-01")).count '<' = 13 :=
  ((c7_sitemap_entries [] [] (str "2025-01-01") (by decide)).2).trans (by decide)

end GcpIam
